import Mathlib

/-!
Verification development for the monkey-rust front end: the Pratt parser
(src/parser/lib.rs) and the bytecode compiler (src/compiler/compiler.rs).

The parser and compiler are translated from the repository's source.  The
crates they depend on (the lexer's token type, the AST in ast.rs, the
precedence table in precedences.rs, the opcode encoding in op_code.rs, the
symbol table in symbol_table.rs, and the compiler's object crate) are not
among the repository files available here; those parts are modelled from the
specification, as marked on each definition.

The Rust parser drives general recursion off a token stream, so its Lean
translation takes an explicit fuel argument; running out of fuel is a
distinct outcome (`nofuel`), never confused with a syntax error.  A Rust
`.unwrap()` on an `Err` is modelled as the distinct outcome `panicked`.
-/

namespace Monkey

/-- Modelled from the spec: the lexer crate (external to the core) is not in
the repository files.  Token kinds are those the parser and compiler match
on: identifier, integer literal, string literal, keywords, operators,
delimiters and the end-of-input sentinel. -/
inductive TokenKind where
  | IDENTIFIER (id : String)
  | INT (i : Int)
  | STRING (s : String)
  | TRUE
  | FALSE
  | BANG
  | MINUS
  | PLUS
  | ASTERISK
  | SLASH
  | EQ
  | NotEq
  | LT
  | GT
  | ASSIGN
  | COMMA
  | SEMICOLON
  | LPAREN
  | RPAREN
  | LBRACE
  | RBRACE
  | LBRACKET
  | RBRACKET
  | LET
  | RETURN
  | IF
  | ELSE
  | FUNCTION
  | EOF
  deriving DecidableEq, Repr

/-- Modelled from the spec: the user-displayable rendering of a token kind
(the lexer's Display implementation is not in the repository files). -/
def renderTokenKind : TokenKind → String
  | .IDENTIFIER id => id
  | .INT i => toString i
  | .STRING s => s
  | .TRUE => "true"
  | .FALSE => "false"
  | .BANG => "!"
  | .MINUS => "-"
  | .PLUS => "+"
  | .ASTERISK => "*"
  | .SLASH => "/"
  | .EQ => "=="
  | .NotEq => "!="
  | .LT => "<"
  | .GT => ">"
  | .ASSIGN => "="
  | .COMMA => ","
  | .SEMICOLON => ";"
  | .LPAREN => "("
  | .RPAREN => ")"
  | .LBRACE => "\x7b"
  | .RBRACE => "\x7d"
  | .LBRACKET => "["
  | .RBRACKET => "]"
  | .LET => "let"
  | .RETURN => "return"
  | .IF => "if"
  | .ELSE => "else"
  | .FUNCTION => "fn"
  | .EOF => "EOF"

/-- Modelled from the spec: a token is its kind plus any literal payload (the
payload lives inside the kind); the parser only ever reads `token.kind`
and renders the token for error messages. -/
structure Token where
  kind : TokenKind
  deriving DecidableEq, Repr

/-- Modelled from the spec: the rendering of a whole token, used by the
parser's error messages. -/
def renderToken (t : Token) : String := renderTokenKind t.kind

mutual
/-- Modelled from the spec: ast.rs is not in the repository files.  Literal
expressions: integer, boolean, string, array, and hash (ordered key/value
pairs). -/
inductive Literal where
  | Integer (i : Int)
  | Boolean (b : Bool)
  | String (s : String)
  | Array (elements : List Expression)
  | Hash (elements : List (Expression × Expression))

/-- Modelled from the spec: ast.rs is not in the repository files.  Tagged
expression variants; each composite node owns its children.  A block is an
ordered list of statements. -/
inductive Expression where
  | IDENTIFIER (name : String)
  | LITERAL (l : Literal)
  | PREFIX (op : Token) (operand : Expression)
  | INFIX (op : Token) (left : Expression) (right : Expression)
  | IF (condition : Expression) (consequent : List Statement)
      (alternate : Option (List Statement))
  | FUNCTION (params : List String) (body : List Statement)
  | FunctionCall (callee : Expression) (arguments : List Expression)
  | Index (collection : Expression) (idx : Expression)

/-- Modelled from the spec: ast.rs is not in the repository files.
Statements: let-binding, return, and expression statement. -/
inductive Statement where
  | Let (name : String) (value : Expression)
  | Return (value : Expression)
  | Expr (e : Expression)
end

/-- Modelled from the spec: a block statement is an ordered sequence of
statements scoped to one lexical body. -/
abbrev BlockStatement := List Statement

/-- Modelled from the spec: a program is an ordered sequence of top-level
statements. -/
abbrev Program := List Statement

/-- Modelled from the spec: the node sum the compiler entry point accepts
(program, single statement, or single expression). -/
inductive Node where
  | Program (p : Program)
  | Statement (s : Statement)
  | Expression (e : Expression)

/-- Modelled from the spec: precedences.rs is not in the repository files.
Binding-power tiers, lowest to highest. -/
inductive Precedence where
  | LOWEST
  | EQUALS
  | LESSGREATER
  | SUM
  | PRODUCT
  | PREFIX
  | CALL
  | INDEX
  deriving DecidableEq, Repr

/-- Numeric rank of a tier, realising the derived order on the Rust enum. -/
def Precedence.toNat : Precedence → Nat
  | .LOWEST => 0
  | .EQUALS => 1
  | .LESSGREATER => 2
  | .SUM => 3
  | .PRODUCT => 4
  | .PREFIX => 5
  | .CALL => 6
  | .INDEX => 7

/-- Modelled from the spec: precedences.rs is not in the repository files.
Tier of the token that would act as an infix or call operator. -/
def get_token_precedence : TokenKind → Precedence
  | .EQ => .EQUALS
  | .NotEq => .EQUALS
  | .LT => .LESSGREATER
  | .GT => .LESSGREATER
  | .PLUS => .SUM
  | .MINUS => .SUM
  | .ASTERISK => .PRODUCT
  | .SLASH => .PRODUCT
  | .LPAREN => .CALL
  | .LBRACKET => .INDEX
  | _ => .LOWEST

/-- The end-of-input sentinel token the exhausted lexer keeps producing. -/
def eofToken : Token := ⟨TokenKind.EOF⟩

/-- Parser state: the two-token lookahead window (current and peek) and the
tokens the lexer has not yet produced. -/
structure PState where
  current_token : Token
  peek_token : Token
  rest : List Token
  deriving Repr

/-- Parser::next_token: shift the window one token to the right; an
exhausted stream keeps yielding the EOF sentinel. -/
def PState.next_token (st : PState) : PState :=
  ⟨st.peek_token, st.rest.headD eofToken, st.rest.tail⟩

/-- Parser::new: prime the two-token window from the stream. -/
def mkPState (tokens : List Token) : PState :=
  ⟨tokens.headD eofToken, tokens.tail.headD eofToken, tokens.tail.tail⟩

/-- Outcome of one parsing routine: success or syntax error (each carrying
the mutated parser state, as mutation persists through a Rust `&mut self`
error return), a panic (a Rust `.unwrap()` on an `Err`), or fuel
exhaustion of the Lean translation. -/
inductive PStep (α : Type) where
  | ok (a : α) (st : PState)
  | err (e : String) (st : PState)
  | panicked
  | nofuel

/-- The Rust `?` operator: propagate errors and panics, continue on success. -/
def PStep.bind : PStep α → (α → PState → PStep β) → PStep β
  | .ok a st, f => f a st
  | .err e st, _ => .err e st
  | .panicked, _ => .panicked
  | .nofuel, _ => .nofuel

/-- The Rust `.unwrap()` on a `Result`: success passes through, an error
becomes a panic. -/
def PStep.unwrap : PStep α → PStep α
  | .ok a st => .ok a st
  | .err _ _ => .panicked
  | .panicked => .panicked
  | .nofuel => .nofuel

/-- Parser::expect_peek: advance, then require the new current token's kind;
on mismatch produce the expected/actual error string. -/
def expect_peek (st : PState) (token : TokenKind) : PStep Unit :=
  let st := st.next_token
  if st.current_token.kind = token then
    .ok () st
  else
    .err ("expected token: " ++ renderTokenKind token ++ ", got: "
      ++ renderToken st.current_token) st

mutual

/-- Parser::parse_statement: dispatch on the current token's kind. -/
def parse_statement : Nat → PState → PStep Statement
  | 0, _ => .nofuel
  | n + 1, st =>
    match st.current_token.kind with
    | .LET => parse_let_statement n st
    | .RETURN => parse_return_statement n st
    | _ => parse_expression_statement n st

/-- Parser::parse_let_statement: advance to the name, require it to be an
identifier, require `=`, parse the initializer at LOWEST, then optionally
consume a trailing semicolon. -/
def parse_let_statement : Nat → PState → PStep Statement
  | 0, _ => .nofuel
  | n + 1, st =>
    let st := st.next_token
    match st.current_token.kind with
    | .IDENTIFIER id =>
      (expect_peek st .ASSIGN).bind fun _ st =>
      let st := st.next_token
      (parse_expression n .LOWEST st).bind fun value st =>
      let st := if st.peek_token.kind = TokenKind.SEMICOLON then st.next_token else st
      .ok (.Let id value) st
    | _ => .err "not an identifier" st

/-- Parser::parse_return_statement: advance, parse the returned expression
at LOWEST, then optionally consume a trailing semicolon. -/
def parse_return_statement : Nat → PState → PStep Statement
  | 0, _ => .nofuel
  | n + 1, st =>
    let st := st.next_token
    (parse_expression n .LOWEST st).bind fun value st =>
    let st := if st.peek_token.kind = TokenKind.SEMICOLON then st.next_token else st
    .ok (.Return value) st

/-- Parser::parse_expression_statement: one expression at LOWEST, then
optionally consume a trailing semicolon. -/
def parse_expression_statement : Nat → PState → PStep Statement
  | 0, _ => .nofuel
  | n + 1, st =>
    (parse_expression n .LOWEST st).bind fun expr st =>
    let st := if st.peek_token.kind = TokenKind.SEMICOLON then st.next_token else st
    .ok (.Expr expr) st

/-- Parser::parse_expression: a prefix form, then the precedence-climbing
loop over upcoming infix or call operators. -/
def parse_expression : Nat → Precedence → PState → PStep Expression
  | 0, _, _ => .nofuel
  | n + 1, precedence, st =>
    (parse_prefix_expression n st).bind fun left st =>
    parse_expression_loop n precedence left st

/-- The while loop of Parser::parse_expression: as long as the peek token is
not a semicolon and binds tighter than `precedence`, fold the expression
parsed so far into the next infix form. -/
def parse_expression_loop : Nat → Precedence → Expression → PState → PStep Expression
  | 0, _, _, _ => .nofuel
  | n + 1, precedence, left, st =>
    if st.peek_token.kind ≠ TokenKind.SEMICOLON ∧
        precedence.toNat < (get_token_precedence st.peek_token.kind).toNat then
      match parse_infix_expression n left st with
      | .ok (some e) st => parse_expression_loop n precedence e st
      | .ok none st => .ok left st
      | .err e st => .err e st
      | .panicked => .panicked
      | .nofuel => .nofuel
    else
      .ok left st

/-- Parser::parse_prefix_expression: the prefix dispatch over the current
token: identifier, integer/string/boolean literal, unary bang or minus,
parenthesized group, array literal, if, or function literal; any other
token has no prefix rule and is a syntax error. -/
def parse_prefix_expression : Nat → PState → PStep Expression
  | 0, _ => .nofuel
  | n + 1, st =>
    match st.current_token.kind with
    | .IDENTIFIER id => .ok (.IDENTIFIER id) st
    | .INT i => .ok (.LITERAL (.Integer i)) st
    | .STRING s => .ok (.LITERAL (.String s)) st
    | .TRUE => .ok (.LITERAL (.Boolean true)) st
    | .FALSE => .ok (.LITERAL (.Boolean false)) st
    | .BANG =>
      let prefix_op := st.current_token
      let st := st.next_token
      (parse_expression n .PREFIX st).bind fun expr st =>
      .ok (.PREFIX prefix_op expr) st
    | .MINUS =>
      let prefix_op := st.current_token
      let st := st.next_token
      (parse_expression n .PREFIX st).bind fun expr st =>
      .ok (.PREFIX prefix_op expr) st
    | .LPAREN =>
      -- the source keeps the inner Result, checks the closing paren with ?,
      -- and only then returns the inner Result
      let st := st.next_token
      match parse_expression n .LOWEST st with
      | .ok e st => (expect_peek st .RPAREN).bind fun _ st => .ok e st
      | .err e st => (expect_peek st .RPAREN).bind fun _ st => .err e st
      | .panicked => .panicked
      | .nofuel => .nofuel
    | .LBRACKET =>
      (parse_expression_list n .RBRACKET st).bind fun elements st =>
      .ok (.LITERAL (.Array elements)) st
    | .IF => parse_if_expression n st
    | .FUNCTION => parse_fn_expression n st
    | _ => .err ("no prefix function for token: " ++ renderToken st.current_token) st

/-- Parser::parse_infix_expression: `ok none` when the peek token starts no
infix or call form (the caller then returns what it has).  For an operator
token, the right operand's parse result is unwrapped — a syntax error
there panics instead of propagating. -/
def parse_infix_expression : Nat → Expression → PState → PStep (Option Expression)
  | 0, _, _ => .nofuel
  | n + 1, left, st =>
    match st.peek_token.kind with
    | .PLUS | .MINUS | .ASTERISK | .SLASH | .EQ | .NotEq | .LT | .GT =>
      let st := st.next_token
      let infix_op := st.current_token
      let precedence_value := get_token_precedence st.current_token.kind
      let st := st.next_token
      ((parse_expression n precedence_value st).unwrap).bind fun right st =>
      .ok (some (.INFIX infix_op left right)) st
    | .LPAREN =>
      let st := st.next_token
      (parse_fn_call_expression n left st).bind fun e st =>
      .ok (some e) st
    | _ => .ok none st

/-- Parser::parse_if_expression: `(`, condition, `)`, `{`, consequent block,
then an optional `else` with `{` and an alternate block. -/
def parse_if_expression : Nat → PState → PStep Expression
  | 0, _ => .nofuel
  | n + 1, st =>
    (expect_peek st .LPAREN).bind fun _ st =>
    let st := st.next_token
    (parse_expression n .LOWEST st).bind fun condition st =>
    (expect_peek st .RPAREN).bind fun _ st =>
    (expect_peek st .LBRACE).bind fun _ st =>
    (parse_block_statement n st).bind fun consequence st =>
    if st.peek_token.kind = TokenKind.ELSE then
      let st := st.next_token
      (expect_peek st .LBRACE).bind fun _ st =>
      (parse_block_statement n st).bind fun alt st =>
      .ok (.IF condition consequence (some alt)) st
    else
      .ok (.IF condition consequence none) st

/-- Parser::parse_block_statement: advance past the `{`, then run the block
loop; it always returns ok. -/
def parse_block_statement : Nat → PState → PStep BlockStatement
  | 0, _ => .nofuel
  | n + 1, st =>
    let st := st.next_token
    parse_block_loop n [] st

/-- The while loop of Parser::parse_block_statement: until the current token
is `}` or EOF, parse one statement; a statement that parses is kept, a
statement whose parse errs is silently skipped (`if let Ok(...)`), and in
either case the parser advances. -/
def parse_block_loop : Nat → List Statement → PState → PStep BlockStatement
  | 0, _, _ => .nofuel
  | n + 1, acc, st =>
    if st.current_token.kind = TokenKind.RBRACE ∨ st.current_token.kind = TokenKind.EOF then
      .ok acc st
    else
      match parse_statement n st with
      | .ok s st => parse_block_loop n (acc ++ [s]) st.next_token
      | .err _ st => parse_block_loop n acc st.next_token
      | .panicked => .panicked
      | .nofuel => .nofuel

/-- Parser::parse_fn_expression: `(`, parameter names, `{`, body block. -/
def parse_fn_expression : Nat → PState → PStep Expression
  | 0, _ => .nofuel
  | n + 1, st =>
    (expect_peek st .LPAREN).bind fun _ st =>
    (parse_fn_parameters n st).bind fun params st =>
    (expect_peek st .LBRACE).bind fun _ st =>
    (parse_block_statement n st).bind fun function_body st =>
    .ok (.FUNCTION params function_body) st

/-- Parser::parse_fn_parameters: empty list on an immediate `)`, else the
first identifier followed by the comma loop and the closing `)`. -/
def parse_fn_parameters : Nat → PState → PStep (List String)
  | 0, _ => .nofuel
  | n + 1, st =>
    if st.peek_token.kind = TokenKind.RPAREN then
      .ok [] st.next_token
    else
      let st := st.next_token
      match st.current_token.kind with
      | .IDENTIFIER id => parse_fn_params_loop n [id] st
      | _ => .err ("expected function params  to be an identifier, got "
          ++ renderTokenKind st.current_token.kind) st

/-- The while loop of Parser::parse_fn_parameters: while a comma follows,
consume it and require the next parameter to be an identifier; finally
require the closing `)`. -/
def parse_fn_params_loop : Nat → List String → PState → PStep (List String)
  | 0, _, _ => .nofuel
  | n + 1, params, st =>
    if st.peek_token.kind = TokenKind.COMMA then
      let st := st.next_token.next_token
      match st.current_token.kind with
      | .IDENTIFIER id => parse_fn_params_loop n (params ++ [id]) st
      | _ => .err ("expected function params  to be an identifier, got "
          ++ renderTokenKind st.current_token.kind) st
    else
      (expect_peek st .RPAREN).bind fun _ st =>
      .ok params st

/-- Parser::parse_fn_call_expression: the shared expression-list routine up
to `)`, wrapped as a call node. -/
def parse_fn_call_expression : Nat → Expression → PState → PStep Expression
  | 0, _, _ => .nofuel
  | n + 1, expr, st =>
    (parse_expression_list n .RPAREN st).bind fun arguments st =>
    .ok (.FunctionCall expr arguments) st

/-- Parser::parse_expression_list: the shared comma-separated list routine,
used for call arguments and array literals; empty list on an immediate
`end` token, else first element then the comma loop and the `end` token. -/
def parse_expression_list : Nat → TokenKind → PState → PStep (List Expression)
  | 0, _, _ => .nofuel
  | n + 1, endTok, st =>
    if st.peek_token.kind = endTok then
      .ok [] st.next_token
    else
      let st := st.next_token
      (parse_expression n .LOWEST st).bind fun e st =>
      parse_expression_list_loop n endTok [e] st

/-- The while loop of Parser::parse_expression_list: while a comma follows,
consume it and parse the next element; finally require the `end` token. -/
def parse_expression_list_loop : Nat → TokenKind → List Expression → PState → PStep (List Expression)
  | 0, _, _, _ => .nofuel
  | n + 1, endTok, acc, st =>
    if st.peek_token.kind = TokenKind.COMMA then
      let st := st.next_token.next_token
      (parse_expression n .LOWEST st).bind fun e st =>
      parse_expression_list_loop n endTok (acc ++ [e]) st
    else
      (expect_peek st endTok).bind fun _ st =>
      .ok acc st

end

/-- Outcome of Parser::parse_program: the program, or the accumulated error
list, or a panic, or fuel exhaustion of the Lean translation. -/
inductive ProgOut where
  | ok (p : Program)
  | err (es : List String)
  | panicked
  | nofuel

/-- The top-level loop of Parser::parse_program: while the current token is
not EOF, parse one statement, appending it to the program or its error to
the error list, then advance; afterwards succeed exactly when the error
list is empty. -/
def parse_program_loop : Nat → Program → List String → PState → ProgOut
  | 0, _, _, _ => .nofuel
  | n + 1, stmts, errors, st =>
    if st.current_token.kind = TokenKind.EOF then
      if errors.isEmpty then .ok stmts else .err errors
    else
      match parse_statement n st with
      | .ok s st => parse_program_loop n (stmts ++ [s]) errors st.next_token
      | .err e st => parse_program_loop n stmts (errors ++ [e]) st.next_token
      | .panicked => .panicked
      | .nofuel => .nofuel

/-- Parser::parse_program on a token stream (Parser::new primes the window,
then the statement loop runs). -/
def parse_program (fuel : Nat) (tokens : List Token) : ProgOut :=
  parse_program_loop fuel [] [] (mkPState tokens)

/-- Modelled from the spec: the compiler's object crate is not in the
repository files.  The runtime values the compiler interns into the
constant pool: integers and strings. -/
inductive Object where
  | Integer (i : Int)
  | String (s : String)
  deriving DecidableEq, Repr

/-- Modelled from the spec: op_code.rs is not in the repository files.  The
opcodes the compiler emits. -/
inductive Opcode where
  | OpConst
  | OpAdd
  | OpPop
  | OpSub
  | OpMul
  | OpDiv
  | OpTrue
  | OpFalse
  | OpEqual
  | OpNotEqual
  | OpGreaterThan
  | OpMinus
  | OpBang
  | OpJumpNotTruthy
  | OpJump
  | OpNull
  | OpGetGlobal
  | OpSetGlobal
  | OpArray
  | OpHash
  deriving DecidableEq, Repr

/-- Modelled from the spec: the one-byte tag identifying each opcode. -/
def Opcode.toByte : Opcode → Nat
  | .OpConst => 0
  | .OpAdd => 1
  | .OpPop => 2
  | .OpSub => 3
  | .OpMul => 4
  | .OpDiv => 5
  | .OpTrue => 6
  | .OpFalse => 7
  | .OpEqual => 8
  | .OpNotEqual => 9
  | .OpGreaterThan => 10
  | .OpMinus => 11
  | .OpBang => 12
  | .OpJumpNotTruthy => 13
  | .OpJump => 14
  | .OpNull => 15
  | .OpGetGlobal => 16
  | .OpSetGlobal => 17
  | .OpArray => 18
  | .OpHash => 19

/-- Modelled from the spec: op_code.rs is not in the repository files.
Decode a byte tag back to its opcode (used by change_operand when
re-encoding a patched instruction). -/
def cast_u8_to_opcode : Nat → Opcode
  | 0 => .OpConst
  | 1 => .OpAdd
  | 2 => .OpPop
  | 3 => .OpSub
  | 4 => .OpMul
  | 5 => .OpDiv
  | 6 => .OpTrue
  | 7 => .OpFalse
  | 8 => .OpEqual
  | 9 => .OpNotEqual
  | 10 => .OpGreaterThan
  | 11 => .OpMinus
  | 12 => .OpBang
  | 13 => .OpJumpNotTruthy
  | 14 => .OpJump
  | 15 => .OpNull
  | 16 => .OpGetGlobal
  | 17 => .OpSetGlobal
  | 18 => .OpArray
  | 19 => .OpHash
  | _ => .OpNull

/-- Modelled from the spec: the fixed operand widths per opcode — 2 bytes
for jump targets, constant indices, global slot indices and element
counts; no operands for the nullary opcodes. -/
def Opcode.operand_widths : Opcode → List Nat
  | .OpConst => [2]
  | .OpJumpNotTruthy => [2]
  | .OpJump => [2]
  | .OpGetGlobal => [2]
  | .OpSetGlobal => [2]
  | .OpArray => [2]
  | .OpHash => [2]
  | _ => []

/-- Modelled from the spec: big-endian encoding of one operand at its fixed
width (2 bytes for every operand-taking opcode). -/
def encode_operand : Nat → Nat → List Nat
  | 2, o => [o / 256 % 256, o % 256]
  | _, _ => []

/-- Modelled from the spec: op_code.rs is not in the repository files.
make_instructions: the opcode's byte tag followed by each operand encoded
big-endian at the opcode's fixed width. -/
def make_instructions (op : Opcode) (operands : List Nat) : List Nat :=
  op.toByte :: (List.zip operands op.operand_widths).flatMap
    (fun p => encode_operand p.2 p.1)

/-- A symbol: the bound name and its assigned global slot. -/
structure Symbol where
  name : String
  index : Nat
  deriving DecidableEq, Repr

/-- Modelled from the spec: symbol_table.rs is not in the repository files.
One flat global scope mapping names to slots. -/
structure SymbolTable where
  store : List (String × Nat)
  deriving DecidableEq, Repr

/-- Modelled from the spec: define assigns the next unused index (table
length before insertion), storing it under the name; redefining a name
overwrites its entry with the fresh index rather than erroring. -/
def SymbolTable.define (tbl : SymbolTable) (name : String) : Symbol × SymbolTable :=
  let idx := tbl.store.length
  let sym : Symbol := ⟨name, idx⟩
  if (tbl.store.lookup name).isSome then
    (sym, ⟨tbl.store.map (fun p => if p.1 = name then (name, idx) else p)⟩)
  else
    (sym, ⟨tbl.store ++ [(name, idx)]⟩)

/-- Modelled from the spec: resolve is exact-name lookup in the flat table. -/
def SymbolTable.resolve (tbl : SymbolTable) (name : String) : Option Symbol :=
  (tbl.store.lookup name).map (fun i => ⟨name, i⟩)

/-- EmittedInstruction: the opcode and byte position of an emitted
instruction, tracked for the trailing-pop peephole rule. -/
structure EmittedInstruction where
  opcode : Opcode
  position : Nat
  deriving DecidableEq, Repr

/-- The Compiler struct: instruction buffer (a flat byte sequence), constant
pool, the two most recently emitted instructions, and the symbol table. -/
structure Compiler where
  instructions : List Nat
  constants : List Object
  last_instruction : EmittedInstruction
  previous_instruction : EmittedInstruction
  symbol_table : SymbolTable
  deriving DecidableEq, Repr

/-- The Bytecode output: instruction buffer plus constant pool. -/
structure Bytecode where
  instructions : List Nat
  constants : List Object
  deriving DecidableEq, Repr

/-- Compiler::new: everything empty; the last/previous trackers start as
OpNull at position 0. -/
def Compiler.new : Compiler :=
  ⟨[], [], ⟨.OpNull, 0⟩, ⟨.OpNull, 0⟩, ⟨[]⟩⟩

/-- Compiler::new_with_state: a fresh instruction buffer over a
carried-forward symbol table and constant pool. -/
def new_with_state (symbol_table : SymbolTable) (constants : List Object) : Compiler :=
  ⟨[], constants, ⟨.OpNull, 0⟩, ⟨.OpNull, 0⟩, symbol_table⟩

/-- Compiler::bytecode: snapshot of the instruction buffer and constants. -/
def Compiler.bytecode (c : Compiler) : Bytecode :=
  ⟨c.instructions, c.constants⟩

/-- Compiler::add_constant: push the value and return the index of the newly
appended entry (the pool length before insertion). -/
def Compiler.add_constant (c : Compiler) (obj : Object) : Nat × Compiler :=
  (c.constants.length, { c with constants := c.constants ++ [obj] })

/-- Compiler::add_instructions: append raw bytes, returning the byte offset
at which they start. -/
def Compiler.add_instructions (c : Compiler) (ins : List Nat) : Nat × Compiler :=
  (c.instructions.length, { c with instructions := c.instructions ++ ins })

/-- Compiler::set_last_instruction: shift the last tracker into previous and
record the new last instruction. -/
def Compiler.set_last_instruction (c : Compiler) (op : Opcode) (pos : Nat) : Compiler :=
  { c with previous_instruction := c.last_instruction,
           last_instruction := ⟨op, pos⟩ }

/-- Compiler::emit: encode the instruction, append it, record it as the last
emitted instruction, and return its starting byte offset. -/
def Compiler.emit (c : Compiler) (op : Opcode) (operands : List Nat) : Nat × Compiler :=
  let ins := make_instructions op operands
  let (pos, c) := c.add_instructions ins
  (pos, c.set_last_instruction op pos)

/-- Compiler::last_instruction_is. -/
def Compiler.last_instruction_is (c : Compiler) (op : Opcode) : Bool :=
  c.last_instruction.opcode = op

/-- Compiler::remove_last_pop: drop the final byte of the buffer (a pop is
one byte) and restore the previous-instruction tracker. -/
def Compiler.remove_last_pop (c : Compiler) : Compiler :=
  { c with instructions := c.instructions.take (c.instructions.length - 1),
           last_instruction := c.previous_instruction }

/-- Overwrite bytes of `data` in place starting at `pos`. -/
def set_bytes : List Nat → Nat → List Nat → List Nat
  | data, _, [] => data
  | data, pos, b :: bs => set_bytes (data.set pos b) (pos + 1) bs

/-- Compiler::replace_instruction: in-place overwrite at a byte offset. -/
def Compiler.replace_instruction (c : Compiler) (pos : Nat) (ins : List Nat) : Compiler :=
  { c with instructions := set_bytes c.instructions pos ins }

/-- Compiler::change_operand: re-encode the instruction whose tag byte sits
at `pos` with the new operand and overwrite it in place. -/
def Compiler.change_operand (c : Compiler) (pos : Nat) (operand : Nat) : Compiler :=
  let op := cast_u8_to_opcode (c.instructions.getD pos 0)
  let ins := make_instructions op [operand]
  c.replace_instruction pos ins

/-- Outcome of one compiler routine: success, a compile error, a panic (a
Rust `.unwrap()` on an `Err`), or fuel exhaustion of the Lean
translation (the Rust recursion needs none; claims hold for every fuel). -/
inductive COut where
  | ok
  | err (e : String)
  | panicked
  | nofuel
  deriving DecidableEq, Repr

/-- A compiler routine's outcome together with the compiler state it leaves
behind (for a panic the state is the point of death, never read). -/
abbrev CRes := COut × Compiler

/-- The Rust `.unwrap()` on a compile result: an error becomes a panic. -/
def unwrapC : CRes → CRes
  | (.ok, c) => (.ok, c)
  | (.err _, c) => (.panicked, c)
  | (.panicked, c) => (.panicked, c)
  | (.nofuel, c) => (.nofuel, c)

mutual

/-- Compiler::compile_expr, translated arm by arm from the source.  The
PREFIX and INFIX arms unwrap their sub-expression compiles (so an error
there panics); every other arm propagates errors with `?`. -/
def compile_expr : Nat → Expression → Compiler → CRes
  | 0, _, c => (.nofuel, c)
  | _ + 1, .IDENTIFIER name, c =>
    match c.symbol_table.resolve name with
    | some symbol =>
      let (_, c) := c.emit .OpGetGlobal [symbol.index]
      (.ok, c)
    | none => (.err ("Undefined variable '" ++ name ++ "'"), c)
  | _ + 1, .LITERAL (.Integer i), c =>
    let int := Object.Integer i
    let (idx, c) := c.add_constant int
    let (_, c) := c.emit .OpConst [idx]
    (.ok, c)
  | _ + 1, .LITERAL (.Boolean b), c =>
    if b then
      let (_, c) := c.emit .OpTrue []
      (.ok, c)
    else
      let (_, c) := c.emit .OpFalse []
      (.ok, c)
  | _ + 1, .LITERAL (.String s), c =>
    let string_object := Object.String s
    let (idx, c) := c.add_constant string_object
    let (_, c) := c.emit .OpConst [idx]
    (.ok, c)
  | n + 1, .LITERAL (.Array elements), c =>
    match compile_expr_list n elements c with
    | (.ok, c) =>
      let (_, c) := c.emit .OpArray [elements.length]
      (.ok, c)
    | r => r
  | n + 1, .LITERAL (.Hash pairs), c =>
    match compile_pair_list n pairs c with
    | (.ok, c) =>
      let (_, c) := c.emit .OpHash [pairs.length * 2]
      (.ok, c)
    | r => r
  | n + 1, .PREFIX op operand, c =>
    match unwrapC (compile_expr n operand c) with
    | (.ok, c) =>
      match op.kind with
      | .MINUS =>
        let (_, c) := c.emit .OpMinus []
        (.ok, c)
      | .BANG =>
        let (_, c) := c.emit .OpBang []
        (.ok, c)
      | _ => (.err ("unexpected prefix op: " ++ renderToken op), c)
    | r => r
  | n + 1, .INFIX op left right, c =>
    if op.kind = TokenKind.LT then
      match unwrapC (compile_expr n right c) with
      | (.ok, c) =>
        match unwrapC (compile_expr n left c) with
        | (.ok, c) =>
          let (_, c) := c.emit .OpGreaterThan []
          (.ok, c)
        | r => r
      | r => r
    else
      match unwrapC (compile_expr n left c) with
      | (.ok, c) =>
        match unwrapC (compile_expr n right c) with
        | (.ok, c) =>
          match op.kind with
          | .PLUS =>
            let (_, c) := c.emit .OpAdd []
            (.ok, c)
          | .MINUS =>
            let (_, c) := c.emit .OpSub []
            (.ok, c)
          | .ASTERISK =>
            let (_, c) := c.emit .OpMul []
            (.ok, c)
          | .SLASH =>
            let (_, c) := c.emit .OpDiv []
            (.ok, c)
          | .GT =>
            let (_, c) := c.emit .OpGreaterThan []
            (.ok, c)
          | .EQ =>
            let (_, c) := c.emit .OpEqual []
            (.ok, c)
          | .NotEq =>
            let (_, c) := c.emit .OpNotEqual []
            (.ok, c)
          | _ => (.err ("unexpected infix op: " ++ renderToken op), c)
        | r => r
      | r => r
  | n + 1, .IF condition consequent alternate, c =>
    match compile_expr n condition c with
    | (.ok, c) =>
      let (jump_not_truthy, c) := c.emit .OpJumpNotTruthy [9527]
      match compile_block_statement n consequent c with
      | (.ok, c) =>
        let c := if c.last_instruction_is .OpPop then c.remove_last_pop else c
        let (jump_pos, c) := c.emit .OpJump [9527]
        let after_consequence_location := c.instructions.length
        let c := c.change_operand jump_not_truthy after_consequence_location
        match alternate with
        | none =>
          let (_, c) := c.emit .OpNull []
          let after_alternative_location := c.instructions.length
          (.ok, c.change_operand jump_pos after_alternative_location)
        | some alt =>
          match compile_block_statement n alt c with
          | (.ok, c) =>
            let c := if c.last_instruction_is .OpPop then c.remove_last_pop else c
            let after_alternative_location := c.instructions.length
            (.ok, c.change_operand jump_pos after_alternative_location)
          | r => r
      | r => r
    | r => r
  | _ + 1, .FUNCTION _ _, c => (.ok, c)
  | _ + 1, .FunctionCall _ _, c => (.ok, c)
  | _ + 1, .Index _ _, c => (.ok, c)

/-- The element loop of the Array arm: compile each element left to right,
propagating errors with `?`. -/
def compile_expr_list : Nat → List Expression → Compiler → CRes
  | 0, _, c => (.nofuel, c)
  | _ + 1, [], c => (.ok, c)
  | n + 1, e :: rest, c =>
    match compile_expr n e c with
    | (.ok, c) => compile_expr_list n rest c
    | r => r

/-- The pair loop of the Hash arm: compile each key then its value,
interleaved, left to right, propagating errors with `?`. -/
def compile_pair_list : Nat → List (Expression × Expression) → Compiler → CRes
  | 0, _, c => (.nofuel, c)
  | _ + 1, [], c => (.ok, c)
  | n + 1, (k, v) :: rest, c =>
    match compile_expr n k c with
    | (.ok, c) =>
      match compile_expr n v c with
      | (.ok, c) => compile_pair_list n rest c
      | r => r
    | r => r

/-- Compiler::compile_stmt: Let compiles the initializer, defines the name
and stores the slot; Return is a no-op returning Ok; an expression
statement compiles the expression then emits a pop. -/
def compile_stmt : Nat → Statement → Compiler → CRes
  | 0, _, c => (.nofuel, c)
  | n + 1, .Let name value, c =>
    match compile_expr n value c with
    | (.ok, c) =>
      let (symbol, tbl) := c.symbol_table.define name
      let c := { c with symbol_table := tbl }
      let (_, c) := c.emit .OpSetGlobal [symbol.index]
      (.ok, c)
    | r => r
  | _ + 1, .Return _, c => (.ok, c)
  | n + 1, .Expr e, c =>
    match compile_expr n e c with
    | (.ok, c) =>
      let (_, c) := c.emit .OpPop []
      (.ok, c)
    | r => r

/-- Compiler::compile_block_statement: compile each statement in order,
propagating errors with `?`. -/
def compile_block_statement : Nat → BlockStatement → Compiler → CRes
  | 0, _, c => (.nofuel, c)
  | _ + 1, [], c => (.ok, c)
  | n + 1, s :: rest, c =>
    match compile_stmt n s c with
    | (.ok, c) => compile_block_statement n rest c
    | r => r
end

/-- Outcome of Compiler::compile: the bytecode, a compile error, a panic, or
fuel exhaustion of the Lean translation. -/
inductive CompileResult where
  | ok (b : Bytecode)
  | err (e : String)
  | panicked
  | nofuel
  deriving DecidableEq, Repr

/-- Compiler::compile: dispatch on the node (the Program arm runs the same
statement loop as compile_block_statement over the program's body), then
snapshot the bytecode. -/
def compile (fuel : Nat) (node : Node) (c : Compiler) : CompileResult × Compiler :=
  match node with
  | .Program p =>
    match compile_block_statement fuel p c with
    | (.ok, c) => (.ok c.bytecode, c)
    | (.err e, c) => (.err e, c)
    | (.panicked, c) => (.panicked, c)
    | (.nofuel, c) => (.nofuel, c)
  | .Statement s =>
    match compile_stmt fuel s c with
    | (.ok, c) => (.ok c.bytecode, c)
    | (.err e, c) => (.err e, c)
    | (.panicked, c) => (.panicked, c)
    | (.nofuel, c) => (.nofuel, c)
  | .Expression e =>
    match compile_expr fuel e c with
    | (.ok, c) => (.ok c.bytecode, c)
    | (.err e, c) => (.err e, c)
    | (.panicked, c) => (.panicked, c)
    | (.nofuel, c) => (.nofuel, c)

/-- Shorthand for a payload-free token. -/
def tok (k : TokenKind) : Token := ⟨k⟩

/-- Shorthand for an identifier token. -/
def idTok (s : String) : Token := ⟨.IDENTIFIER s⟩

/-- Shorthand for an integer-literal token. -/
def intTok (i : Int) : Token := ⟨.INT i⟩

/-- Read the big-endian 2-byte operand stored at byte offset `pos` of an
instruction buffer. -/
def readU16 (data : List Nat) (pos : Nat) : Nat :=
  data.getD pos 0 * 256 + data.getD (pos + 1) 0

/-- Discriminator: did a parsing routine return a syntax error? -/
def PStep.isErr : PStep α → Bool
  | .ok _ _ => false
  | .err _ _ => true
  | .panicked => false
  | .nofuel => false

/-- The AST of the if-expression without an else branch, `if (x) { 10 }`. -/
def ifNoElseNode : Node :=
  .Expression (.IF (.IDENTIFIER "x") [.Expr (.LITERAL (.Integer 10))] none)

/-- A compiler whose carried-forward symbol table defines `x` (slot 0). -/
def ifNoElseCompiler : Compiler :=
  new_with_state (SymbolTable.define ⟨[]⟩ "x").2 []

/-- The instruction buffer produced for `if (x) { 10 }`. -/
def ifNoElseInstrs : List Nat :=
  ((compile 99 ifNoElseNode ifNoElseCompiler).2).instructions

/-- The token stream of `1 + +`: an infix plus whose right operand has no
prefix parse rule. -/
def onePlusPlusTokens : List Token :=
  [intTok 1, tok .PLUS, tok .PLUS, tok .EOF]

/-- The AST of `-x` with `x` never defined. -/
def prefixUndefNode : Node :=
  .Expression (.PREFIX (tok .MINUS) (.IDENTIFIER "x"))

/-- The token stream of the hash literal `{}`. -/
def emptyHashTokens : List Token :=
  [tok .LBRACE, tok .RBRACE, tok .EOF]

/-- The token stream of the array literal `[1, 2]`. -/
def arrayTokens : List Token :=
  [tok .LBRACKET, intTok 1, tok .COMMA, intTok 2, tok .RBRACKET, tok .EOF]

/-- The token stream of the call `add(1, 2)`. -/
def callTokens : List Token :=
  [idTok "add", tok .LPAREN, intTok 1, tok .COMMA, intTok 2, tok .RPAREN, tok .EOF]

/-- The token stream of the malformed statement `let 5;`. -/
def badLetTokens : List Token :=
  [tok .LET, intTok 5, tok .SEMICOLON, tok .EOF]

/-- The token stream of `if (x) { let 5; }`: the same malformed statement,
now inside an if-branch block. -/
def blockBadLetTokens : List Token :=
  [tok .IF, tok .LPAREN, idTok "x", tok .RPAREN, tok .LBRACE,
   tok .LET, intTok 5, tok .SEMICOLON, tok .RBRACE, tok .EOF]

/-- The token stream of `fn() { let 5; }`: the same malformed statement
inside a function body. -/
def fnBadLetTokens : List Token :=
  [tok .FUNCTION, tok .LPAREN, tok .RPAREN, tok .LBRACE,
   tok .LET, intTok 5, tok .SEMICOLON, tok .RBRACE, tok .EOF]

/-- The token stream of `if (x) { 10` — the block is opened but end of input
arrives before the closing brace. -/
def unterminatedBlockTokens : List Token :=
  [tok .IF, tok .LPAREN, idTok "x", tok .RPAREN, tok .LBRACE, intTok 10, tok .EOF]

/-- The AST of the statement `1 < 2`. -/
def oneLtTwoNode : Node :=
  .Statement (.Expr (.INFIX (tok .LT) (.LITERAL (.Integer 1)) (.LITERAL (.Integer 2))))

/-- C1 counterexample: for `if (x) { 10 }` (compiled as an if-expression
with `x` defined), the push-null fallback instruction starts at byte
offset 12 and is the last instruction (buffer length 13, so the offset
immediately after it is 13), but the conditional jump's patched operand
(bytes 4 and 5) is not 13 — the claim's first conjunct fails. -/
theorem if_no_else_cond_jump_not_after_null :
    ifNoElseInstrs.getD 12 0 = Opcode.OpNull.toByte ∧
    ifNoElseInstrs.length = 13 ∧
    readU16 ifNoElseInstrs 4 ≠ 13 := by
  decide

/-- C1 (amended): for `if (x) { 10 }` (compiled as an if-expression with
`x` defined), the conditional jump's patched operand (12) equals the byte
offset at which the emitted push-null fallback instruction begins —
immediately after the emitted unconditional jump — and the unconditional
jump's patched operand (13) equals the final instruction buffer length. -/
theorem if_no_else_jump_patching :
    readU16 ifNoElseInstrs 4 = 12 ∧
    ifNoElseInstrs.getD 12 0 = Opcode.OpNull.toByte ∧
    readU16 ifNoElseInstrs 10 = 13 ∧
    ifNoElseInstrs.length = 13 := by
  decide

/-- C2: the claim that no syntax error is ever raised as a panic fails —
parsing `1 + +` reaches the `.unwrap()` on the right operand of the infix
plus in parse_infix_expression, and the no-prefix-rule error becomes a
panic instead of being collected into the returned error list. -/
theorem parse_one_plus_plus_panics :
    parse_program 99 onePlusPlusTokens = ProgOut.panicked := by
  rfl

/-- C3: the claim that every compile error propagates as an Err fails —
the undefined-identifier error is returned as an Err when `x` is compiled
on its own, but compiling `-x` reaches the `.unwrap()` on the operand's
compile result inside the PREFIX arm and the same error becomes a panic. -/
theorem compile_prefix_undefined_panics :
    (compile 99 (Node.Expression (.IDENTIFIER "x")) Compiler.new).1 =
      CompileResult.err "Undefined variable 'x'" ∧
    (compile 99 prefixUndefNode Compiler.new).1 = CompileResult.panicked := by
  exact ⟨rfl, rfl⟩

/-- C4: compiling the statement `1 < 2` emits load-constant(index of 2),
load-constant(index of 1), greater-than, pop, with constants [2, 1];
in general an infix `<` compiles the right operand, then the left
operand, then emits the greater-than opcode, and every other supported
infix operator (+, -, *, /, >, ==, !=) compiles left then right and
emits the matching opcode. -/
theorem infix_operand_order :
    (compile 99 oneLtTwoNode Compiler.new).1 =
      CompileResult.ok ⟨[Opcode.OpConst.toByte, 0, 0, Opcode.OpConst.toByte, 0, 1,
          Opcode.OpGreaterThan.toByte, Opcode.OpPop.toByte],
        [Object.Integer 2, Object.Integer 1]⟩
    ∧ (∀ (n : Nat) (op : Token) (l r : Expression) (c c1 c2 : Compiler),
        op.kind = TokenKind.LT →
        compile_expr n r c = (COut.ok, c1) →
        compile_expr n l c1 = (COut.ok, c2) →
        compile_expr (n + 1) (.INFIX op l r) c = (COut.ok, (c2.emit .OpGreaterThan []).2))
    ∧ (∀ (op : Token) (opc : Opcode),
        (op.kind, opc) ∈ [(TokenKind.PLUS, Opcode.OpAdd), (TokenKind.MINUS, Opcode.OpSub),
          (TokenKind.ASTERISK, Opcode.OpMul), (TokenKind.SLASH, Opcode.OpDiv),
          (TokenKind.GT, Opcode.OpGreaterThan), (TokenKind.EQ, Opcode.OpEqual),
          (TokenKind.NotEq, Opcode.OpNotEqual)] →
        ∀ (n : Nat) (l r : Expression) (c c1 c2 : Compiler),
          compile_expr n l c = (COut.ok, c1) →
          compile_expr n r c1 = (COut.ok, c2) →
          compile_expr (n + 1) (.INFIX op l r) c = (COut.ok, (c2.emit opc []).2)) := by
  refine ⟨by decide, ?_, ?_⟩
  · intro n op l r c c1 c2 hk hr hl
    simp only [compile_expr, hk, if_pos, hr, hl, unwrapC]
  · intro op opc hmem n l r c c1 c2 hl hr
    simp only [List.mem_cons, List.not_mem_nil, or_false] at hmem
    rcases hmem with h | h | h | h | h | h | h <;>
      (rw [Prod.mk.injEq] at h; obtain ⟨hk, hopc⟩ := h; subst hopc;
       simp only [compile_expr, hk, hl, hr, unwrapC];
       simp [hk])

/-- C4 witness: the operand-order equations applied at concrete inputs —
`7 + 8` compiles via the left-then-right equation and `1 < 2` via the
swapped `<` equation, each at fuel 98 + 1. -/
theorem infix_operand_order_witness :
    compile_expr 99 (.INFIX (tok .PLUS) (.LITERAL (.Integer 7)) (.LITERAL (.Integer 8)))
        Compiler.new
      = (COut.ok, ((⟨[0, 0, 0, 0, 0, 1], [.Integer 7, .Integer 8],
          ⟨.OpConst, 3⟩, ⟨.OpConst, 0⟩, ⟨[]⟩⟩ : Compiler).emit .OpAdd []).2) ∧
    compile_expr 99 (.INFIX (tok .LT) (.LITERAL (.Integer 1)) (.LITERAL (.Integer 2)))
        Compiler.new
      = (COut.ok, ((⟨[0, 0, 0, 0, 0, 1], [.Integer 2, .Integer 1],
          ⟨.OpConst, 3⟩, ⟨.OpConst, 0⟩, ⟨[]⟩⟩ : Compiler).emit .OpGreaterThan []).2) := by
  constructor
  · exact infix_operand_order.2.2 (tok .PLUS) .OpAdd (by decide) 98
      (.LITERAL (.Integer 7)) (.LITERAL (.Integer 8)) Compiler.new
      ⟨[0, 0, 0], [.Integer 7], ⟨.OpConst, 0⟩, ⟨.OpNull, 0⟩, ⟨[]⟩⟩
      ⟨[0, 0, 0, 0, 0, 1], [.Integer 7, .Integer 8], ⟨.OpConst, 3⟩, ⟨.OpConst, 0⟩, ⟨[]⟩⟩
      (by decide) (by decide)
  · exact infix_operand_order.2.1 98 (tok .LT)
      (.LITERAL (.Integer 1)) (.LITERAL (.Integer 2)) Compiler.new
      ⟨[0, 0, 0], [.Integer 2], ⟨.OpConst, 0⟩, ⟨.OpNull, 0⟩, ⟨[]⟩⟩
      ⟨[0, 0, 0, 0, 0, 1], [.Integer 2, .Integer 1], ⟨.OpConst, 3⟩, ⟨.OpConst, 0⟩, ⟨[]⟩⟩
      rfl (by decide) (by decide)

/-- C5: parsing produces the canonically grouped AST — `a + b * c` parses as
(a + (b * c)), `a * b / c` as ((a * b) / c), `-a * b` as ((-a) * b), and
`5 > 4 == 3 < 4` as ((5 > 4) == (3 < 4)) — and the binding-power tiers
rank LOWEST < EQUALS < LESSGREATER < SUM < PRODUCT < PREFIX. -/
theorem precedence_parsing :
    parse_program 99 [idTok "a", tok .PLUS, idTok "b", tok .ASTERISK, idTok "c", tok .EOF]
      = ProgOut.ok [.Expr (.INFIX (tok .PLUS) (.IDENTIFIER "a")
          (.INFIX (tok .ASTERISK) (.IDENTIFIER "b") (.IDENTIFIER "c")))]
    ∧ parse_program 99 [idTok "a", tok .ASTERISK, idTok "b", tok .SLASH, idTok "c", tok .EOF]
      = ProgOut.ok [.Expr (.INFIX (tok .SLASH)
          (.INFIX (tok .ASTERISK) (.IDENTIFIER "a") (.IDENTIFIER "b")) (.IDENTIFIER "c"))]
    ∧ parse_program 99 [tok .MINUS, idTok "a", tok .ASTERISK, idTok "b", tok .EOF]
      = ProgOut.ok [.Expr (.INFIX (tok .ASTERISK)
          (.PREFIX (tok .MINUS) (.IDENTIFIER "a")) (.IDENTIFIER "b"))]
    ∧ parse_program 99 [intTok 5, tok .GT, intTok 4, tok .EQ, intTok 3, tok .LT, intTok 4, tok .EOF]
      = ProgOut.ok [.Expr (.INFIX (tok .EQ)
          (.INFIX (tok .GT) (.LITERAL (.Integer 5)) (.LITERAL (.Integer 4)))
          (.INFIX (tok .LT) (.LITERAL (.Integer 3)) (.LITERAL (.Integer 4))))]
    ∧ Precedence.LOWEST.toNat < Precedence.EQUALS.toNat
    ∧ Precedence.EQUALS.toNat < Precedence.LESSGREATER.toNat
    ∧ Precedence.LESSGREATER.toNat < Precedence.SUM.toNat
    ∧ Precedence.SUM.toNat < Precedence.PRODUCT.toNat
    ∧ Precedence.PRODUCT.toNat < Precedence.PREFIX.toNat := by
  exact ⟨rfl, rfl, rfl, rfl, by decide, by decide, by decide, by decide, by decide⟩

/-- C6 counterexample: the parser does not parse hash literals — on the
token stream of `{}` it returns the accumulated no-prefix-rule syntax
errors for `{` and `}` instead of a Hash literal expression. -/
theorem hash_literal_not_parsed :
    parse_program 99 emptyHashTokens =
      ProgOut.err ["no prefix function for token: \x7b",
        "no prefix function for token: \x7d"] := by
  rfl

/-- C6 (amended): a `{` in expression position has no prefix parse rule, so
a hash literal yields a no-prefix-function syntax error; the shared
expression-list routine is reused for array literals and call arguments
only. -/
theorem expression_list_shared_no_hash :
    parse_program 99 emptyHashTokens =
      ProgOut.err ["no prefix function for token: \x7b",
        "no prefix function for token: \x7d"]
    ∧ parse_program 99 arrayTokens =
        ProgOut.ok [.Expr (.LITERAL (.Array [.LITERAL (.Integer 1), .LITERAL (.Integer 2)]))]
    ∧ parse_program 99 callTokens =
        ProgOut.ok [.Expr (.FunctionCall (.IDENTIFIER "add")
          [.LITERAL (.Integer 1), .LITERAL (.Integer 2)])] := by
  exact ⟨rfl, rfl, rfl⟩

/-- C7 counterexample: the statement `let 5;` produces syntax errors at top
level, yet inside the block of `if (x) { let 5; }` the very same
malformed statement is silently discarded — the parse succeeds with an
empty consequent block and an empty error list. -/
theorem block_statement_error_swallowed :
    parse_program 99 badLetTokens =
      ProgOut.err ["not an identifier", "no prefix function for token: ;"]
    ∧ parse_program 99 blockBadLetTokens =
        ProgOut.ok [.Expr (.IF (.IDENTIFIER "x") [] none)] := by
  exact ⟨rfl, rfl⟩

/-- C7 (amended): no error is silently swallowed except the return no-op
and statement errors inside blocks — parse_block_statement discards the
error of any statement that fails to parse, in if-branch bodies and in
function bodies alike, so such errors are neither recorded in the error
list nor returned to the caller. -/
theorem block_statement_error_discarded :
    parse_program 99 blockBadLetTokens =
      ProgOut.ok [.Expr (.IF (.IDENTIFIER "x") [] none)]
    ∧ parse_program 99 fnBadLetTokens =
        ProgOut.ok [.Expr (.FUNCTION [] [])] := by
  exact ⟨rfl, rfl⟩

/-- C8: compiling a Return statement is a no-op that succeeds — the result
is Ok and the whole compiler state (instruction buffer, constant pool,
symbol table, last/previous-instruction tracking) is returned unchanged;
through the compile entry point the bytecode is the unchanged snapshot. -/
theorem return_statement_compiles_to_nothing (fuel : Nat) (e : Expression) (c : Compiler) :
    compile_stmt (fuel + 1) (Statement.Return e) c = (COut.ok, c) ∧
    compile (fuel + 1) (Node.Statement (.Return e)) c = (CompileResult.ok c.bytecode, c) := by
  exact ⟨rfl, rfl⟩

/-- The block loop of parse_block_statement never produces a syntax error,
whatever the statements inside it do: statement errors are discarded and
the loop ends at `}` or at end of input. -/
theorem parse_block_loop_never_err (fuel : Nat) :
    ∀ (acc : List Statement) (st : PState),
      (parse_block_loop fuel acc st).isErr = false := by
  induction fuel with
  | zero => intro acc st; rfl
  | succ n ih =>
    intro acc st
    simp only [parse_block_loop]
    split
    · rfl
    · rcases h : parse_statement n st with _ | _ | _ | _ <;> simp only [h] <;>
        first
          | exact ih _ _
          | rfl

/-- Unwrapping never changes the compiler state, only the outcome tag. -/
theorem unwrapC_snd (r : CRes) : (unwrapC r).2 = r.2 := by
  rcases r with ⟨o, c⟩
  cases o <;> rfl

/-- Emitting an instruction never touches the constant pool. -/
theorem emit_constants (c : Compiler) (op : Opcode) (ops : List Nat) :
    ((c.emit op ops).2).constants = c.constants := rfl

/-- Patching an operand in place never touches the constant pool. -/
theorem change_operand_constants (c : Compiler) (pos operand : Nat) :
    (c.change_operand pos operand).constants = c.constants := rfl

/-- The trailing-pop peephole removal never touches the constant pool. -/
theorem pop_removal_constants (c : Compiler) (op : Opcode) :
    (if c.last_instruction_is op then c.remove_last_pop else c).constants
      = c.constants := by
  split <;> rfl

/-- At every fuel level, each compiler routine only ever appends to the
constant pool: the input pool is a prefix of the output pool. -/
theorem constants_prefix_all (fuel : Nat) :
    (∀ (e : Expression) (c : Compiler),
      c.constants <+: ((compile_expr fuel e c).2).constants)
    ∧ (∀ (l : List Expression) (c : Compiler),
      c.constants <+: ((compile_expr_list fuel l c).2).constants)
    ∧ (∀ (l : List (Expression × Expression)) (c : Compiler),
      c.constants <+: ((compile_pair_list fuel l c).2).constants)
    ∧ (∀ (s : Statement) (c : Compiler),
      c.constants <+: ((compile_stmt fuel s c).2).constants)
    ∧ (∀ (b : BlockStatement) (c : Compiler),
      c.constants <+: ((compile_block_statement fuel b c).2).constants) := by
  induction fuel with
  | zero =>
    exact ⟨fun e c => List.prefix_rfl, fun l c => List.prefix_rfl,
      fun l c => List.prefix_rfl, fun s c => List.prefix_rfl,
      fun b c => List.prefix_rfl⟩
  | succ n ih =>
    obtain ⟨ihe, ihl, ihp, ihs, ihb⟩ := ih
    refine ⟨?_, ?_, ?_, ?_, ?_⟩
    · intro e c
      cases e with
      | IDENTIFIER name =>
        simp only [compile_expr]
        split <;> exact List.prefix_rfl
      | LITERAL l =>
        cases l with
        | Integer i => exact List.prefix_append _ _
        | Boolean b =>
          simp only [compile_expr]
          split <;> exact List.prefix_rfl
        | String s => exact List.prefix_append _ _
        | Array elements =>
          simp only [compile_expr]
          split
          · next c1 heq =>
            have h := ihl elements c
            rw [heq] at h
            exact h
          · exact ihl elements c
        | Hash pairs =>
          simp only [compile_expr]
          split
          · next c1 heq =>
            have h := ihp pairs c
            rw [heq] at h
            exact h
          · exact ihp pairs c
      | PREFIX op operand =>
        simp only [compile_expr]
        split
        · next c1 heq =>
          have h := ihe operand c
          have h2 : ((compile_expr n operand c).2) = c1 := by
            rw [← unwrapC_snd, heq]
          rw [h2] at h
          split <;> exact h
        · rw [unwrapC_snd]
          exact ihe operand c
      | INFIX op left right =>
        simp only [compile_expr]
        split
        · split
          · next c1 heq =>
            have h := ihe right c
            have h2 : ((compile_expr n right c).2) = c1 := by
              rw [← unwrapC_snd, heq]
            rw [h2] at h
            split
            · next c2 heq2 =>
              have hh := ihe left c1
              have hh2 : ((compile_expr n left c1).2) = c2 := by
                rw [← unwrapC_snd, heq2]
              rw [hh2] at hh
              exact h.trans hh
            · have hh := ihe left c1
              rw [← unwrapC_snd] at hh
              exact h.trans hh
          · rw [unwrapC_snd]
            exact ihe right c
        · split
          · next c1 heq =>
            have h := ihe left c
            have h2 : ((compile_expr n left c).2) = c1 := by
              rw [← unwrapC_snd, heq]
            rw [h2] at h
            split
            · next c2 heq2 =>
              have hh := ihe right c1
              have hh2 : ((compile_expr n right c1).2) = c2 := by
                rw [← unwrapC_snd, heq2]
              rw [hh2] at hh
              split <;> exact h.trans hh
            · have hh := ihe right c1
              rw [← unwrapC_snd] at hh
              exact h.trans hh
          · rw [unwrapC_snd]
            exact ihe left c
      | IF condition consequent alternate =>
        simp only [compile_expr]
        split
        · next c1 heq =>
          have h1 := ihe condition c
          rw [heq] at h1
          split
          · next c2 heq2 =>
            have h2 := ihb consequent ((c1.emit .OpJumpNotTruthy [9527]).2)
            rw [heq2] at h2
            rw [emit_constants] at h2
            cases alternate with
            | none =>
              simp only [change_operand_constants, emit_constants, pop_removal_constants]
              exact h1.trans h2
            | some alt =>
              have h3 := ihb alt
                ((((if c2.last_instruction_is Opcode.OpPop then c2.remove_last_pop
                    else c2).emit Opcode.OpJump [9527]).2).change_operand
                  (c1.emit Opcode.OpJumpNotTruthy [9527]).1
                  ((((if c2.last_instruction_is Opcode.OpPop then c2.remove_last_pop
                    else c2).emit Opcode.OpJump [9527]).2).instructions.length))
              simp only [change_operand_constants, emit_constants, pop_removal_constants] at h3
              simp only []
              split
              · next c3 heq3 =>
                rw [heq3] at h3
                simp only [change_operand_constants, pop_removal_constants]
                exact h1.trans (h2.trans h3)
              · exact h1.trans (h2.trans h3)
          · have h2 := ihb consequent ((c1.emit Opcode.OpJumpNotTruthy [9527]).2)
            rw [emit_constants] at h2
            exact h1.trans h2
        · exact ihe condition c
      | FUNCTION params body => exact List.prefix_rfl
      | FunctionCall callee arguments => exact List.prefix_rfl
      | Index collection idx => exact List.prefix_rfl
    · intro l c
      cases l with
      | nil => exact List.prefix_rfl
      | cons e rest =>
        simp only [compile_expr_list]
        split
        · next c1 heq =>
          have h := ihe e c
          rw [heq] at h
          exact h.trans (ihl rest c1)
        · exact ihe e c
    · intro l c
      cases l with
      | nil => exact List.prefix_rfl
      | cons kv rest =>
        obtain ⟨k, v⟩ := kv
        simp only [compile_pair_list]
        split
        · next c1 heq =>
          have h := ihe k c
          rw [heq] at h
          split
          · next c2 heq2 =>
            have h2 := ihe v c1
            rw [heq2] at h2
            exact h.trans (h2.trans (ihp rest c2))
          · next heq2 =>
            have h2 := ihe v c1
            exact h.trans h2
        · exact ihe k c
    · intro s c
      cases s with
      | Let name value =>
        simp only [compile_stmt]
        split
        · next c1 heq =>
          have h := ihe value c
          rw [heq] at h
          exact h
        · exact ihe value c
      | Return value => exact List.prefix_rfl
      | Expr e =>
        simp only [compile_stmt]
        split
        · next c1 heq =>
          have h := ihe e c
          rw [heq] at h
          exact h
        · exact ihe e c
    · intro b c
      cases b with
      | nil => exact List.prefix_rfl
      | cons s rest =>
        simp only [compile_block_statement]
        split
        · next c1 heq =>
          have h := ihs s c
          rw [heq] at h
          exact h.trans (ihb rest c1)
        · exact ihs s c

/-- The compile entry point only ever appends to the constant pool. -/
theorem compile_constants_prefix (fuel : Nat) (node : Node) (c : Compiler) :
    c.constants <+: ((compile fuel node c).2).constants := by
  obtain ⟨ihe, ihl, ihp, ihs, ihb⟩ := constants_prefix_all fuel
  cases node with
  | Program p =>
    simp only [compile]
    split <;> next c1 heq => (have h := ihb p c; rw [heq] at h; exact h)
  | Statement s =>
    simp only [compile]
    split <;> next c1 heq => (have h := ihs s c; rw [heq] at h; exact h)
  | Expression e =>
    simp only [compile]
    split <;> next c1 heq => (have h := ihe e c; rw [heq] at h; exact h)

/-- C9: the constant pool is append-only — compiling any node on a compiler
carrying forward state via new_with_state leaves the carried-forward
constants as a prefix of the output pool (so existing entries and indices
are unchanged and the length never decreases); the same holds for any
compiler state, so it holds across every sequence of successive compile
calls; and add_constant appends and returns the pool length before
insertion. -/
theorem constant_pool_append_only :
    (∀ (fuel : Nat) (node : Node) (tbl : SymbolTable) (consts : List Object),
      consts <+: ((compile fuel node (new_with_state tbl consts)).2).constants
      ∧ consts.length ≤ ((compile fuel node (new_with_state tbl consts)).2).constants.length)
    ∧ (∀ (fuel : Nat) (node : Node) (c : Compiler),
      c.constants <+: ((compile fuel node c).2).constants)
    ∧ (∀ (c : Compiler) (obj : Object),
      (c.add_constant obj).1 = c.constants.length
      ∧ ((c.add_constant obj).2).constants = c.constants ++ [obj]) := by
  refine ⟨fun fuel node tbl consts => ?_, compile_constants_prefix, fun c obj => ⟨rfl, rfl⟩⟩
  have h := compile_constants_prefix fuel node (new_with_state tbl consts)
  exact ⟨h, h.length_le⟩

/-- C10: block parsing treats end-of-input like a closing brace —
parse_block_statement never returns a syntax error (in particular no
missing-brace error), and parsing `if (x) { 10` with the brace never
closed succeeds with the statements parsed so far. -/
theorem block_tolerates_missing_brace :
    (∀ (fuel : Nat) (st : PState), (parse_block_statement fuel st).isErr = false)
    ∧ parse_program 99 unterminatedBlockTokens =
        ProgOut.ok [.Expr (.IF (.IDENTIFIER "x") [.Expr (.LITERAL (.Integer 10))] none)] := by
  refine ⟨fun fuel st => ?_, rfl⟩
  cases fuel with
  | zero => rfl
  | succ n => simpa only [parse_block_statement] using parse_block_loop_never_err n [] st.next_token

end Monkey
